import Mathlib

/-!
Verification of the `wcwidth` character-width library.

Shallow embedding of `src/wcwidth/wcwidth.py` (the single source file of the
repository): the single-character classifier `wcwidth`, the sequence
aggregator `wcswidth`, the version resolver `_wcmatch_version` with its value
parser `_wcversion_value`, and the interval binary search `_bisearch`.

Strings of code points are modelled as `List Nat`; Python dicts of
version-keyed interval tables as association lists; the `warnings.warn`
side effect as a `Bool` component of the resolver's result.  The interval
tables and the master version list live in modules outside `src/`
(`table_zero.py`, `table_wide.py`, `table_vs16.py`, `unicode_versions.py`)
and are modelled from the spec, see `Dml` below.

Loops are embedded as fuel-based structural recursions; each caller passes a
fuel value that provably dominates the number of iterations of the Python
loop (the loop index strictly increases at every iteration), so the
exhaustion branches are unreachable on the calls made here.
-/

/-- Kind tag of a detected span, `'zwj'` or `'vs16'` in the source. -/
inductive SeqType
  | zwj
  | vs16
deriving DecidableEq

/-- Python tuple comparison `<` on version-value tuples (lexicographic;
a strict prefix is smaller). -/
def verLt : List Int → List Int → Bool
  | [], [] => false
  | [], _ :: _ => true
  | _ :: _, [] => false
  | x :: xs, y :: ys =>
    if x < y then true
    else if y < x then false
    else verLt xs ys

/-- Python tuple comparison `<=` on version-value tuples. -/
def verLe (x y : List Int) : Bool := verLt x y || x == y

/-- Value of a list of decimal digit characters. -/
def digitsVal (l : List Char) : Nat :=
  l.foldl (fun a c => 10 * a + (c.toNat - 48)) 0

/-- Model of Python `int()` applied to a string, for the strings arising
here: an optional sign followed by one or more decimal digits.  (Python's
surrounding-whitespace and underscore-grouping forms are not modelled; no
input in this development uses them.)  `none` models the `ValueError`. -/
def pyInt (s : String) : Option Int :=
  match s.data with
  | [] => none
  | '-' :: rest =>
    if rest ≠ [] ∧ rest.all Char.isDigit then some (-(digitsVal rest : Int)) else none
  | '+' :: rest =>
    if rest ≠ [] ∧ rest.all Char.isDigit then some ((digitsVal rest : Int)) else none
  | l => if l.all Char.isDigit then some ((digitsVal l : Int)) else none

/-- Split a character list at `'.'` separators (Python `str.split('.')`);
always returns at least one (possibly empty) piece. -/
def splitDotChars : List Char → List (List Char)
  | [] => [[]]
  | c :: rest =>
    if c = '.' then [] :: splitDotChars rest
    else
      match splitDotChars rest with
      | [] => [[c]]
      | l :: ls => (c :: l) :: ls

/-- Python `ver_string.split('.')`. -/
def pySplitDot (s : String) : List String :=
  (splitDotChars s.data).map String.mk

/-- Python `'.'.join(parts)`. -/
def joinDot : List String → String
  | [] => ""
  | [s] => s
  | s :: rest => s ++ "." ++ joinDot rest

/-- Python `tuple(map(int, parts))`: parses every part left to right,
`none` as soon as one part raises. -/
def parseParts : List String → Option (List Int)
  | [] => some []
  | s :: rest =>
    match pyInt s, parseParts rest with
    | some v, some vs => some (v :: vs)
    | _, _ => none

/-- `_wcversion_value(ver_string)`: integer-tuple value of a dotted version
string; the source catches the parse exception itself and yields
`(0, 0, 0)` for any unparseable input. -/
def _wcversion_value (ver_string : String) : List Int :=
  match parseParts (pySplitDot ver_string) with
  | some vals => vals
  | none => [0, 0, 0]

/-- The module-level data consumed by the source: the master version list
(`list_versions()`) and the three version-keyed interval-table sets.
Python dicts are modelled as association lists in insertion order. -/
structure WcData where
  list_versions : List String
  ZERO_WIDTH : List (String × List (Nat × Nat))
  WIDE_EASTASIAN : List (String × List (Nat × Nat))
  VS16_NARROW_TO_WIDE : List (String × List (Nat × Nat))

/-- Stable insertion of a string into a list sorted by `le`. -/
def insertSorted (le : String → String → Bool) (x : String) : List String → List String
  | [] => [x]
  | y :: ys => if le x y then x :: y :: ys else y :: insertSorted le x ys

/-- Stable ascending sort by `le`; agrees with Python `sorted(…, key=…)`
(both are the stable ascending reordering). -/
def sortByLe (le : String → String → Bool) : List String → List String
  | [] => []
  | x :: xs => insertSorted le x (sortByLe le xs)

/-- Comparator `_wcversion_value a <= _wcversion_value b` used with
`sorted(…, key=_wcversion_value)`. -/
def verKeyLe (a b : String) : Bool := verLe (_wcversion_value a) (_wcversion_value b)

/-- The final `for version in versions:` loop of `_wcmatch_version`
(lines 388-405): exact match returned verbatim, otherwise the nearest
version strictly below the request, otherwise the earliest version; the
`Bool` records whether a warning was emitted. -/
def matchLoop (given_value : List Int) (earliest : String) :
    List String → Option String → String × Bool
  | [], _ => (earliest, true)
  | v :: rest, prev =>
    if _wcversion_value v = given_value then (v, false)
    else if verLt given_value (_wcversion_value v) then
      match prev with
      | some p => (p, true)
      | none => (earliest, true)
    else matchLoop given_value earliest rest (some v)

/-- `_wcmatch_version(given_version)`: nearest supported version for a
descriptor.  `env` models the `UNICODE_VERSION` environment variable read
for `"auto"`.  The result pairs the resolved version string with a `Bool`
recording whether `warnings.warn` fired.  The source's `try/except` around
`_wcversion_value` (lines 357-363) is unreachable — `_wcversion_value`
already catches the exceptions the handler names — so it has no case here.
An empty master list would raise `IndexError` in the source; the model
returns `("", true)` there (the list is never empty). -/
def _wcmatch_version (D : WcData) (env : Option String) (given_version : String) :
    String × Bool :=
  let gv0 := if given_version = "auto" then env.getD "latest" else given_version
  if gv0 = "latest" then (D.list_versions.getLastD "", false)
  else
    let parts := pySplitDot gv0
    let parts3 := parts ++ List.replicate (3 - parts.length) "0"
    let gv := joinDot parts3
    let versions := sortByLe verKeyLe D.list_versions
    let given_value := _wcversion_value gv
    match versions with
    | [] => ("", true)
    | v0 :: rest =>
      let vlast := (v0 :: rest).getLastD v0
      if verLt (_wcversion_value vlast) given_value then (vlast, true)
      else if verLt given_value (_wcversion_value v0) then (v0, true)
      else matchLoop given_value v0 (v0 :: rest) none

/-- Dict lookup `TABLE[version]`.  The source raises `KeyError` when the key
is absent; every lookup it performs is on a present key (the zero-width set
carries all master versions, and the other two sets are probed only at one
of their own keys), so the default `[]` is never consulted. -/
def lookupTable (tbl : List (String × List (Nat × Nat))) (v : String) : List (Nat × Nat) :=
  (tbl.lookup v).getD []

/-- The per-table version fallback of `wcwidth` (lines 148-164): when the
resolved version is not a key of the table set, sort the keys ascending,
start from the earliest, and break at the first key whose value is `<=` the
resolved version's value.  An empty table set would raise `IndexError` in
the source; the model returns `version` there (the sets are never empty). -/
def tableFallback (tbl : List (String × List (Nat × Nat))) (version : String) : String :=
  if (tbl.lookup version).isSome then version
  else
    let keys := sortByLe verKeyLe (tbl.map Prod.fst)
    match keys with
    | [] => version
    | k0 :: _ =>
      match keys.find? (fun v => verKeyLe v version) with
      | some v => v
      | none => k0

/-- The `while max >= min` loop of `_bisearch`, with fuel.  `hi` is an `Int`
because Python's `max = mid - 1` may reach `-1`.  With fuel at least
`hi - lo + 1` the exhaustion branch coincides with the loop's exit (both
are the not-found result `0`). -/
def bisearchLoop (ucs : Nat) (table : List (Nat × Nat)) : Nat → Nat → Int → Nat
  | 0, _, _ => 0
  | fuel + 1, lo, hi =>
    if hi < (lo : Int) then 0
    else
      let mid : Nat := ((lo : Int) + hi).toNat / 2
      if (table.getD mid (0, 0)).2 < ucs then bisearchLoop ucs table fuel (mid + 1) hi
      else if ucs < (table.getD mid (0, 0)).1 then
        bisearchLoop ucs table fuel lo ((mid : Int) - 1)
      else 1

/-- `_bisearch(ucs, table)`: 1 when `ucs` falls inside one of the inclusive
ranges of `table`, else 0.  The source indexes `table[0]` and assumes a
non-empty table (`IndexError` otherwise); the model answers 0 there. -/
def _bisearch (ucs : Nat) (table : List (Nat × Nat)) : Nat :=
  if ucs < (table.headD (0, 0)).1 ∨ (table.getD (table.length - 1) (0, 0)).2 < ucs then 0
  else bisearchLoop ucs table table.length 0 ((table.length : Int) - 1)

/-- `wcwidth` on an ordinal value (the body of `wcwidth` after
`ucs = ord(wc) if len(wc) else 0`).  Python's `if _bisearch(…)` tests the
result for truthiness, i.e. `≠ 0`.  Both arms of the version test on a
VS16-table hit return 1 in the source (lines 166-172). -/
def wcwidthUcs (D : WcData) (env : Option String) (ucs : Nat) (unicode_version : String) :
    Int :=
  if ucs = 0 then 0
  else if ucs < 32 ∨ (0x7f ≤ ucs ∧ ucs < 0xa0) then -1
  else
    let version := (_wcmatch_version D env unicode_version).1
    if _bisearch ucs (lookupTable D.ZERO_WIDTH version) ≠ 0 then 0
    else if ucs = 0x200D then 0
    else if ucs = 0xFE0F then 0
    else
      let vs16_version := tableFallback D.VS16_NARROW_TO_WIDE version
      let wide_version := tableFallback D.WIDE_EASTASIAN version
      if _bisearch ucs (lookupTable D.VS16_NARROW_TO_WIDE vs16_version) ≠ 0 then
        if verLe (_wcversion_value version) (_wcversion_value "8.0.0") then 1
        else 1
      else if _bisearch ucs (lookupTable D.WIDE_EASTASIAN wide_version) ≠ 0 then 2
      else 1

/-- `wcwidth(wc, unicode_version)` on a string argument:
`ucs = ord(wc) if len(wc) else 0`; `ord` raises `TypeError` on a string of
length 2 or more, modelled as `none`. -/
def wcwidth (D : WcData) (env : Option String) (wc : List Nat) (unicode_version : String) :
    Option Int :=
  match wc with
  | [] => some (wcwidthUcs D env 0 unicode_version)
  | [c] => some (wcwidthUcs D env c unicode_version)
  | _ => none

/-- The control-character test of the `wcswidth` pre-scan (line 216):
`ucs != 0 and (ucs < 32 or (0x7f <= ucs < 0xa0))`. -/
def pyCtl (c : Nat) : Bool :=
  decide (c ≠ 0 ∧ (c < 32 ∨ (0x7f ≤ c ∧ c < 0xa0)))

/-- The inner `while j < n` loop of the pre-scan (lines 223-229), extending
a joined span: advance by 2 over a `(code point, joiner)` pair, by 1 over a
trailing bare joiner or selector, stop otherwise.  `j` strictly increases,
so fuel `n` dominates the iteration count on every call made here. -/
def zwjEnd (pwcs : List Nat) (n : Nat) : Nat → Nat → Nat
  | 0, j => j
  | fuel + 1, j =>
    if j < n then
      if j + 1 < n ∧ pwcs.getD (j + 1) 0 = 0x200D then zwjEnd pwcs n fuel (j + 2)
      else if j < n ∧ (pwcs.getD j 0 = 0x200D ∨ pwcs.getD j 0 = 0xFE0F) then
        zwjEnd pwcs n fuel (j + 1)
      else j
    else j

/-- The first `while i < n` loop of `wcswidth` (lines 211-240): control
characters abort with `-1` (`none` here), a position whose successor is the
joiner opens a joined span, a position whose successor is the selector opens
a two-element selector span.  `i` strictly increases, so fuel `n` dominates
the iteration count on every call made here; exhaustion answers like the
loop's exit. -/
def findSequences (pwcs : List Nat) (n : Nat) : Nat → Nat → Option (List (Nat × Nat × SeqType))
  | 0, _ => some []
  | fuel + 1, i =>
    if i < n then
      if pyCtl (pwcs.getD i 0) then none
      else if i + 1 < n ∧ pwcs.getD (i + 1) 0 = 0x200D then
        let j := zwjEnd pwcs n n (i + 2)
        match findSequences pwcs n fuel (j + 1) with
        | none => none
        | some rest => some ((i, j + 1, SeqType.zwj) :: rest)
      else if i + 1 < n ∧ pwcs.getD (i + 1) 0 = 0xFE0F then
        match findSequences pwcs n fuel (i + 2) with
        | none => none
        | some rest => some ((i, i + 2, SeqType.vs16) :: rest)
      else findSequences pwcs n fuel (i + 1)
    else some []

/-- The second `while i < n` loop of `wcswidth` (lines 243-283): the first
listed span matching the position decides (span start contributes the span
width and jumps to its end, an interior position is skipped), otherwise the
single-character classifier contributes, a negative classification aborting
with `-1` (`none` here).  The source's second `is_part_of_sequence` loop is
subsumed by the same `find?` (its predicate is weaker), so the classifier
runs exactly when the `find?` misses.  In the start case the source sets
`i = end - 1` and then `i += 1`; spans produced by the pre-scan have
`end ≥ start + 2`, so `i` strictly increases and fuel `n` dominates the
iteration count on every call made here. -/
def calcWidth (D : WcData) (env : Option String) (uv : String) (pwcs : List Nat) (n : Nat)
    (seqs : List (Nat × Nat × SeqType)) : Nat → Nat → Int → Option Int
  | 0, _, width => some width
  | fuel + 1, i, width =>
    if i < n then
      match seqs.find? (fun s => decide (i = s.1 ∨ (s.1 ≤ i ∧ i < s.2.1))) with
      | some s =>
        if i = s.1 then
          let add : Int :=
            if s.2.2 = SeqType.vs16 then
              if verLe (_wcversion_value uv) (_wcversion_value "8.0.0") then 1 else 2
            else 2
          calcWidth D env uv pwcs n seqs fuel (s.2.1 - 1 + 1) (width + add)
        else calcWidth D env uv pwcs n seqs fuel (i + 1) width
      | none =>
        let cw := wcwidthUcs D env (pwcs.getD i 0) uv
        if cw < 0 then none
        else calcWidth D env uv pwcs n seqs fuel (i + 1) (width + cw)
    else some width

/-- One step of the duplicate-discarding loop of lines 296-306: skip
selector spans, keep a joined span unless it overlaps one already kept. -/
def overlapStep (acc : List (Nat × Nat × SeqType)) (s : Nat × Nat × SeqType) :
    List (Nat × Nat × SeqType) :=
  if s.2.2 = SeqType.vs16 then acc
  else if acc.any (fun p => decide (s.1 ≤ p.2.1 ∧ p.1 ≤ s.2.1)) then acc
  else acc ++ [s]

/-- The `non_overlapping` list of lines 296-306. -/
def nonOverlapping (seqs : List (Nat × Nat × SeqType)) : List (Nat × Nat × SeqType) :=
  seqs.foldl overlapStep []

/-- The measured prefix length: `n = len(pwcs)` when `n is None`, else
`min(n, len(pwcs))`.  (Python also accepts negative `n`, measuring nothing;
`Nat` covers the claims' domain.) -/
def measuredLen (pwcs : List Nat) (n : Option Nat) : Nat :=
  match n with
  | none => pwcs.length
  | some k => min k pwcs.length

/-- `wcswidth(pwcs, n, unicode_version)`: pre-scan for spans, accumulate
per-position widths, then the post-pass of lines 285-310 — a sole selector
span forces the result to 1 or 2 by version, any surviving joined span
forces it to 2. -/
def wcswidth (D : WcData) (env : Option String) (pwcs : List Nat) (n : Option Nat)
    (unicode_version : String) : Int :=
  if pwcs = [] then 0
  else
    match findSequences pwcs (measuredLen pwcs n) (measuredLen pwcs n) 0 with
    | none => -1
    | some sequences =>
      match calcWidth D env unicode_version pwcs (measuredLen pwcs n) sequences
          (measuredLen pwcs n) 0 0 with
      | none => -1
      | some width =>
        if sequences ≠ [] then
          if sequences.length = 1 ∧
              (sequences.headD (0, 0, SeqType.zwj)).2.2 = SeqType.vs16 then
            if verLe (_wcversion_value unicode_version) (_wcversion_value "8.0.0") then 1
            else 2
          else if nonOverlapping sequences ≠ [] then 2
          else width
        else width

/-- A code point is covered by an interval table: it lies in one of the
inclusive ranges. -/
def coveredP (ucs : Nat) (t : List (Nat × Nat)) : Prop :=
  ∃ p ∈ t, p.1 ≤ ucs ∧ ucs ≤ p.2

instance (ucs : Nat) (t : List (Nat × Nat)) : Decidable (coveredP ucs t) :=
  List.decidableBEx _ t

/-- The spec's well-formedness of an interval table: inclusive ranges,
sorted ascending and pairwise non-overlapping. -/
def sortedTable (t : List (Nat × Nat)) : Prop :=
  (∀ p ∈ t, p.1 ≤ p.2) ∧ t.Pairwise (fun p q => p.2 < q.1)

/-- The claims' control-character set: `[1, 31] ∪ [0x7F, 0x9F)`. -/
def claimCtl (c : Nat) : Prop :=
  (1 ≤ c ∧ c ≤ 31) ∨ (0x7f ≤ c ∧ c < 0x9f)

instance (c : Nat) : Decidable (claimCtl c) := by
  unfold claimCtl
  infer_instance

/-- Position `k` lies inside one of the detected spans. -/
def inSpan (seqs : List (Nat × Nat × SeqType)) (k : Nat) : Prop :=
  ∃ s ∈ seqs, s.1 ≤ k ∧ k < s.2.1

/-- Modelled from the spec: the data of `unicode_versions.py`,
`table_zero.py`, `table_wide.py` and `table_vs16.py`, which are outside
`src/`.  Per the spec, the master list is ascending and the named levels
4.1.0, 5.0.0, 8.0.0 and 9.0.0 are supported; each interval table is a
sorted non-overlapping list of inclusive ranges; the zero-width set carries
every master version while the selector set (as the per-table fallback
anticipates) carries only 9.0.0. -/
def Dml : WcData :=
  { list_versions := ["4.1.0", "5.0.0", "8.0.0", "9.0.0", "15.0.0"]
    ZERO_WIDTH :=
      [("4.1.0", [(0x300, 0x36F)]), ("5.0.0", [(0x300, 0x36F)]),
       ("8.0.0", [(0x300, 0x36F)]), ("9.0.0", [(0x300, 0x36F)]),
       ("15.0.0", [(0x300, 0x36F)])]
    WIDE_EASTASIAN :=
      [("4.1.0", [(0x1100, 0x115F), (0x4E00, 0x9FFF)]),
       ("5.0.0", [(0x1100, 0x115F), (0x4E00, 0x9FFF)]),
       ("8.0.0", [(0x1100, 0x115F), (0x4E00, 0x9FFF)]),
       ("9.0.0", [(0x1100, 0x115F), (0x4E00, 0x9FFF)]),
       ("15.0.0", [(0x1100, 0x115F), (0x4E00, 0x9FFF)])]
    VS16_NARROW_TO_WIDE := [("9.0.0", [(0x23, 0x23), (0x2702, 0x2716)])] }

/-- C1: the claim expects a code point of the selector-narrow-to-wide table
(here U+2714, not caught by any earlier rule) to classify as 1 when the
resolved version is at most 8.0.0 and as 2 when it is above.  The code
indeed yields 1 at 8.0.0, but it also yields 1 at the exactly-resolved
version 9.0.0: both arms of the version test return 1 (lines 169-172),
against the inline comment announcing wide treatment after Unicode 9.0. -/
theorem claim_c1 :
    (_wcmatch_version Dml none "9.0.0").1 = "9.0.0" ∧
    _bisearch 0x2714
      (lookupTable Dml.VS16_NARROW_TO_WIDE
        (tableFallback Dml.VS16_NARROW_TO_WIDE "9.0.0")) = 1 ∧
    wcwidthUcs Dml none 0x2714 "8.0.0" = 1 ∧
    wcwidthUcs Dml none 0x2714 "9.0.0" = 1 := by
  refine ⟨by decide, by decide, by decide, by decide⟩

/-- C2: a base letter followed by VARIATION SELECTOR-16 measures 1 at
`"8.0.0"` and 2 at `"9.0.0"` as the claim states, but it measures 1 — not
the claimed 2 — at `"latest"`: `wcswidth` compares the raw descriptor,
and `_wcversion_value("latest")` parses to `(0, 0, 0) ≤ (8, 0, 0)`
(lines 252 and 290), so the newest-version behaviour is never selected. -/
theorem claim_c2 :
    wcswidth Dml none [97, 0xFE0F] none "8.0.0" = 1 ∧
    wcswidth Dml none [97, 0xFE0F] none "9.0.0" = 2 ∧
    wcswidth Dml none [97, 0xFE0F] none "latest" = 1 ∧
    _wcversion_value "latest" = [0, 0, 0] := by
  refine ⟨by decide, by decide, by decide, by decide⟩

/-- C5: the claim expects a non-numeric descriptor to fall back to the
latest supported version.  `"invalid"` is indeed unparseable and a warning
does fire, but the resolver returns the earliest version `"4.1.0"`, not
the latest `"15.0.0"`: `_wcversion_value` swallows the `ValueError` and
yields `(0, 0, 0)`, which is then clamped below the minimum (lines 382-385);
the handler promising `"latest"` (lines 358-363) is unreachable. -/
theorem claim_c5 :
    parseParts (pySplitDot "invalid") = none ∧
    _wcmatch_version Dml none "invalid" = ("4.1.0", true) ∧
    Dml.list_versions.getLastD "" = "15.0.0" := by
  refine ⟨by decide, by decide, by decide⟩

/-- C6: version resolution on the modelled master list: `"4.9.9"` resolves
to `"4.1.0"` (nearest strictly below), `"1"` resolves to the earliest
supported version, and `"8.0"` is zero-padded and matches `"8.0.0"`
exactly. -/
theorem claim_c6 :
    (_wcmatch_version Dml none "4.9.9").1 = "4.1.0" ∧
    (_wcmatch_version Dml none "1").1 = Dml.list_versions.headD "" ∧
    Dml.list_versions.headD "" = "4.1.0" ∧
    (_wcmatch_version Dml none "8.0").1 = "8.0.0" := by
  refine ⟨by decide, by decide, by decide, by decide⟩

/-- C4 counterexample: the control character U+0001 sits inside the
measured prefix of `"a" + ZWJ + "\x01"` (it is absorbed into the joined
span), yet `wcswidth` returns 2, not the claimed -1. -/
theorem claim_c4_counterexample :
    claimCtl (([97, 0x200D, 1] : List Nat).getD 2 0) ∧
    2 < measuredLen [97, 0x200D, 1] none ∧
    wcswidth Dml none [97, 0x200D, 1] none "9.0.0" = 2 := by
  refine ⟨by decide, by decide, by decide⟩

/-- C7 counterexample: a bare joiner with no preceding base character DOES
begin a span when the next character is again a joiner: on
`ZWJ + ZWJ` the pre-scan opens a joined span at position 0 and the measure
is forced to 2, not the claimed fall-through classification 0 + 0. -/
theorem claim_c7_counterexample :
    findSequences [0x200D, 0x200D] 2 2 0 = some [(0, 3, SeqType.zwj)] ∧
    wcswidth Dml none [0x200D, 0x200D] none "latest" = 2 := by
  refine ⟨by decide, by decide⟩

/-- C9: every code point in `[1, 31] ∪ [0x7F, 0x9F)` classifies as -1,
whatever the tables, environment and version descriptor. -/
theorem claim_c9 (D : WcData) (env : Option String) (uv : String) (c : Nat)
    (h : claimCtl c) : wcwidthUcs D env c uv = -1 := by
  unfold wcwidthUcs
  rw [if_neg, if_pos]
  · unfold claimCtl at h
    omega
  · unfold claimCtl at h
    omega

/-- Witness for C9 at the concrete control code point 5. -/
theorem claim_c9_witness :
    claimCtl 5 ∧ wcwidthUcs Dml none 5 "latest" = -1 :=
  ⟨by decide, claim_c9 Dml none "latest" 5 (by decide)⟩

/-- C10: `wcwidth` applied to the empty string treats the ordinal as 0 and
returns 0 rather than raising, and the control range extends through 0x9F
inclusive (the code tests `0x7f <= ucs < 0xa0`). -/
theorem claim_c10 (D : WcData) (env : Option String) (uv : String) :
    wcwidth D env [] uv = some 0 ∧ wcwidthUcs D env 0x9f uv = -1 := by
  constructor
  · show some (wcwidthUcs D env 0 uv) = some 0
    unfold wcwidthUcs
    rw [if_pos rfl]
  · unfold wcwidthUcs
    rw [if_neg (by omega), if_pos (by omega)]

/-- An in-range `getD` of a table is one of its members. -/
theorem getD_mem_of_lt {t : List (Nat × Nat)} {k : Nat} (h : k < t.length) :
    t.getD k (0, 0) ∈ t := by
  rw [List.getD_eq_getElem t _ h]
  exact List.getElem_mem h

/-- Index form of the sortedness of a table. -/
theorem pairwise_lt_index {t : List (Nat × Nat)}
    (hp : t.Pairwise (fun p q => p.2 < q.1)) :
    ∀ a b : Nat, a < b → b < t.length →
      (t.getD a (0, 0)).2 < (t.getD b (0, 0)).1 := by
  intro a b hab hb
  have ha : a < t.length := lt_trans hab hb
  rw [List.getD_eq_getElem t _ ha, List.getD_eq_getElem t _ hb]
  exact List.pairwise_iff_getElem.mp hp a b ha hb hab

/-- Index form of table coverage. -/
theorem coveredP_index {ucs : Nat} {t : List (Nat × Nat)} :
    coveredP ucs t ↔
      ∃ k, k < t.length ∧ (t.getD k (0, 0)).1 ≤ ucs ∧ ucs ≤ (t.getD k (0, 0)).2 := by
  constructor
  · rintro ⟨p, hp, hp1, hp2⟩
    rcases List.mem_iff_get.mp hp with ⟨⟨k, hk⟩, rfl⟩
    refine ⟨k, hk, ?_, ?_⟩ <;>
      rw [List.getD_eq_getElem t _ hk] <;> rw [List.get_eq_getElem] at hp1 hp2 <;>
      assumption
  · rintro ⟨k, hk, h1, h2⟩
    exact ⟨t.getD k (0, 0), getD_mem_of_lt hk, h1, h2⟩

/-- Invariant-based correctness of the `while max >= min` loop: when every
candidate below `lo` ends before `ucs` and every candidate above `hi`
starts after `ucs`, and the fuel dominates the width of `[lo, hi]`, the
loop decides coverage of the whole table. -/
theorem bisearchLoop_eq (ucs : Nat) (t : List (Nat × Nat))
    (hwf : ∀ p ∈ t, p.1 ≤ p.2)
    (hpi : ∀ a b : Nat, a < b → b < t.length →
      (t.getD a (0, 0)).2 < (t.getD b (0, 0)).1) :
    ∀ (fuel : Nat) (lo : Nat) (hi : Int),
      hi < (t.length : Int) →
      hi - (lo : Int) + 1 ≤ (fuel : Int) →
      (∀ k : Nat, k < t.length → (k : Int) < (lo : Int) → (t.getD k (0, 0)).2 < ucs) →
      (∀ k : Nat, k < t.length → hi < (k : Int) → ucs < (t.getD k (0, 0)).1) →
      bisearchLoop ucs t fuel lo hi = if coveredP ucs t then 1 else 0 := by
  intro fuel
  induction fuel with
  | zero =>
    intro lo hi _hlen hsz hlow hhigh
    have hncov : ¬ coveredP ucs t := by
      rw [coveredP_index]
      rintro ⟨k, hk, h1, h2⟩
      by_cases hkl : (k : Int) < (lo : Int)
      · have := hlow k hk hkl
        omega
      · have := hhigh k hk (by omega)
        omega
    simp [bisearchLoop, hncov]
  | succ fuel ih =>
    intro lo hi hlen hsz hlow hhigh
    simp only [bisearchLoop]
    by_cases hex : hi < (lo : Int)
    · rw [if_pos hex]
      have hncov : ¬ coveredP ucs t := by
        rw [coveredP_index]
        rintro ⟨k, hk, h1, h2⟩
        by_cases hkl : (k : Int) < (lo : Int)
        · have := hlow k hk hkl
          omega
        · have := hhigh k hk (by omega)
          omega
      rw [if_neg hncov]
    · rw [if_neg hex]
      have h0hi : 0 ≤ hi := le_trans (Int.ofNat_nonneg lo) (by omega)
      set mid : Nat := ((lo : Int) + hi).toNat / 2 with hmid
      have hmlo : lo ≤ mid := by omega
      have hmhi : (mid : Int) ≤ hi := by omega
      have hmlen : mid < t.length := by omega
      by_cases hgt : (t.getD mid (0, 0)).2 < ucs
      · rw [if_pos hgt]
        apply ih (mid + 1) hi hlen (by omega) ?_ hhigh
        intro k hk hklt
        by_cases hkm : k = mid
        · subst hkm
          exact hgt
        · have hkm2 : k < mid := by omega
          have hp1 := hpi k mid hkm2 hmlen
          have hp2 := hwf (t.getD mid (0, 0)) (getD_mem_of_lt hmlen)
          omega
      · rw [if_neg hgt]
        by_cases hlt2 : ucs < (t.getD mid (0, 0)).1
        · rw [if_pos hlt2]
          apply ih lo ((mid : Int) - 1) (by omega) (by omega) hlow ?_
          intro k hk hkgt
          by_cases hkm : k = mid
          · subst hkm
            exact hlt2
          · have hkm2 : mid < k := by omega
            have hp1 := hpi mid k hkm2 hk
            have hp2 := hwf (t.getD mid (0, 0)) (getD_mem_of_lt hmlen)
            omega
        · rw [if_neg hlt2]
          have hcov : coveredP ucs t :=
            coveredP_index.mpr ⟨mid, hmlen, by omega, by omega⟩
          rw [if_pos hcov]

/-- C8: on any non-empty sorted, pairwise non-overlapping interval table,
`_bisearch` answers 1 exactly on the code points covered by some range and
0 on all others. -/
theorem claim_c8 (t : List (Nat × Nat)) (ucs : Nat)
    (hs : sortedTable t) (hne : t ≠ []) :
    _bisearch ucs t = if coveredP ucs t then 1 else 0 := by
  obtain ⟨hwf, hpw⟩ := hs
  have hpi := pairwise_lt_index hpw
  have hlen : 0 < t.length := List.length_pos.mpr hne
  unfold _bisearch
  by_cases hfr : ucs < (t.headD (0, 0)).1 ∨ (t.getD (t.length - 1) (0, 0)).2 < ucs
  · rw [if_pos hfr]
    have hncov : ¬ coveredP ucs t := by
      rw [coveredP_index]
      rintro ⟨k, hk, ha, hb⟩
      rcases hfr with hfr | hfr
      · have h0 : t.headD (0, 0) = t.getD 0 (0, 0) := by
          cases t with
          | nil => simp at hlen
          | cons a l => rfl
        rw [h0] at hfr
        by_cases hk0 : k = 0
        · subst hk0
          omega
        · have hp1 := hpi 0 k (by omega) hk
          have hp2 := hwf (t.getD 0 (0, 0)) (getD_mem_of_lt hlen)
          omega
      · by_cases hkl : k = t.length - 1
        · subst hkl
          omega
        · have hp1 := hpi k (t.length - 1) (by omega) (by omega)
          have hp2 := hwf (t.getD (t.length - 1) (0, 0)) (getD_mem_of_lt (by omega))
          omega
    rw [if_neg hncov]
  · rw [if_neg hfr]
    apply bisearchLoop_eq ucs t hwf hpi t.length 0 ((t.length : Int) - 1) (by omega) (by omega)
    · intro k _hk hkl
      omega
    · intro k hk hkg
      omega

/-- Witness for C8 on a concrete two-range table and a covered probe. -/
theorem claim_c8_witness :
    sortedTable [(5, 10), (20, 30)] ∧ ([(5, 10), (20, 30)] : List (Nat × Nat)) ≠ [] ∧
      _bisearch 25 [(5, 10), (20, 30)] =
        if coveredP 25 [(5, 10), (20, 30)] then 1 else 0 :=
  ⟨by constructor <;> decide, by decide,
    claim_c8 [(5, 10), (20, 30)] 25 (by constructor <;> decide) (by decide)⟩

/-- The duplicate-discarding fold never empties a non-empty accumulator,
and a joined span reaching an empty accumulator is always kept. -/
theorem foldl_overlapStep_ne_nil (l : List (Nat × Nat × SeqType)) :
    ∀ acc : List (Nat × Nat × SeqType),
      (acc ≠ [] ∨ ∃ s ∈ l, s.2.2 = SeqType.zwj) →
      l.foldl overlapStep acc ≠ [] := by
  induction l with
  | nil =>
    intro acc h
    rcases h with h | ⟨s, hs, _⟩
    · simpa using h
    · cases hs
  | cons a l ih =>
    intro acc h
    rw [List.foldl_cons]
    apply ih
    rcases h with h | ⟨s, hs, hz⟩
    · left
      unfold overlapStep
      split_ifs <;> simp [h]
    · rcases List.mem_cons.mp hs with rfl | hmem
      · left
        unfold overlapStep
        rw [if_neg (by rw [hz]; decide)]
        by_cases hany : acc.any (fun p => decide (s.1 ≤ p.2.1 ∧ p.1 ≤ s.2.1)) = true
        · rw [if_pos hany]
          intro hacc
          rw [hacc] at hany
          simp at hany
        · rw [if_neg hany]
          simp
      · right
        exact ⟨s, hmem, hz⟩

/-- C3: whenever the pre-scan of the measured prefix finds at least one
joined span and the measure is not -1, the post-pass replaces any
accumulated per-character sum and the measure is exactly 2. -/
theorem claim_c3 (D : WcData) (env : Option String) (pwcs : List Nat)
    (n : Option Nat) (uv : String) (seqs : List (Nat × Nat × SeqType))
    (hseq : findSequences pwcs (measuredLen pwcs n) (measuredLen pwcs n) 0 = some seqs)
    (hzwj : ∃ s ∈ seqs, s.2.2 = SeqType.zwj)
    (hne : wcswidth D env pwcs n uv ≠ -1) :
    wcswidth D env pwcs n uv = 2 := by
  rcases hzwj with ⟨s, hs, hz⟩
  by_cases hp : pwcs = []
  · subst hp
    have hm : measuredLen ([] : List Nat) n = 0 := by
      cases n <;> simp [measuredLen]
    rw [hm] at hseq
    have h0 : findSequences [] 0 0 0 = some [] := rfl
    rw [h0] at hseq
    obtain rfl : ([] : List (Nat × Nat × SeqType)) = seqs := Option.some.inj hseq
    cases hs
  · unfold wcswidth at hne ⊢
    rw [if_neg hp, hseq] at hne ⊢
    dsimp only at hne ⊢
    cases hcalc : calcWidth D env uv pwcs (measuredLen pwcs n) seqs
        (measuredLen pwcs n) 0 0 with
    | none =>
      rw [hcalc] at hne
      exact absurd rfl hne
    | some w =>
      rw [hcalc] at hne
      dsimp only at hne ⊢
      have h1 : seqs ≠ [] := by
        intro h
        subst h
        cases hs
      rw [if_pos h1]
      have h2 : ¬(seqs.length = 1 ∧
          (seqs.headD (0, 0, SeqType.zwj)).2.2 = SeqType.vs16) := by
        rintro ⟨hl, hv⟩
        cases seqs with
        | nil => cases hs
        | cons a tl =>
          cases tl with
          | nil =>
            obtain rfl : s = a := by simpa using hs
            simp only [List.headD] at hv
            rw [hz] at hv
            cases hv
          | cons b tl2 => simp at hl
      rw [if_neg h2]
      have h3 : nonOverlapping seqs ≠ [] :=
        foldl_overlapStep_ne_nil seqs [] (Or.inr ⟨s, hs, hz⟩)
      rw [if_pos h3]

/-- Witness for C3: a base, the joiner and a base measure as one joined
span of width 2. -/
theorem claim_c3_witness :
    findSequences [97, 0x200D, 98] (measuredLen [97, 0x200D, 98] none)
        (measuredLen [97, 0x200D, 98] none) 0 = some [(0, 3, SeqType.zwj)] ∧
      (∃ s ∈ [((0 : Nat), (3 : Nat), SeqType.zwj)], s.2.2 = SeqType.zwj) ∧
      wcswidth Dml none [97, 0x200D, 98] none "9.0.0" ≠ -1 ∧
      wcswidth Dml none [97, 0x200D, 98] none "9.0.0" = 2 :=
  ⟨by decide, by decide, by decide,
    claim_c3 Dml none [97, 0x200D, 98] none "9.0.0" [(0, 3, SeqType.zwj)]
      (by decide) (by decide) (by decide)⟩

/-- C7 amended: a bare joiner or selector at the scan position falls
through — beginning no span and advancing the scan by one — exactly when
the immediately following position is not itself a joiner or selector
(the counterexample forces that proviso); and the single-character
classifier gives the bare joiner/selector width 0 whatever the tables and
version. -/
theorem claim_c7_amended (D : WcData) (env : Option String) (uv : String)
    (pwcs : List Nat) (n fuel i : Nat)
    (hlt : i < n)
    (hjs : pwcs.getD i 0 = 0x200D ∨ pwcs.getD i 0 = 0xFE0F)
    (hnx : ¬(i + 1 < n ∧
      (pwcs.getD (i + 1) 0 = 0x200D ∨ pwcs.getD (i + 1) 0 = 0xFE0F))) :
    findSequences pwcs n (fuel + 1) i = findSequences pwcs n fuel (i + 1) ∧
    wcwidthUcs D env (pwcs.getD i 0) uv = 0 := by
  constructor
  · have hc : pyCtl (pwcs.getD i 0) = false := by
      rcases hjs with h | h <;> rw [h] <;> decide
    have h1 : ¬(i + 1 < n ∧ pwcs.getD (i + 1) 0 = 0x200D) := by
      rintro ⟨ha, hb⟩
      exact hnx ⟨ha, Or.inl hb⟩
    have h2 : ¬(i + 1 < n ∧ pwcs.getD (i + 1) 0 = 0xFE0F) := by
      rintro ⟨ha, hb⟩
      exact hnx ⟨ha, Or.inr hb⟩
    simp only [findSequences, hc, Bool.false_eq_true, if_false, if_pos hlt,
      if_neg h1, if_neg h2]
  · rcases hjs with h | h <;> rw [h] <;> simp only [wcwidthUcs] <;> norm_num

/-- Witness for C7 at a bare joiner followed by an ordinary letter. -/
theorem claim_c7_amended_witness :
    0 < 2 ∧
    (([0x200D, 97] : List Nat).getD 0 0 = 0x200D ∨
      ([0x200D, 97] : List Nat).getD 0 0 = 0xFE0F) ∧
    ¬(0 + 1 < 2 ∧ (([0x200D, 97] : List Nat).getD (0 + 1) 0 = 0x200D ∨
      ([0x200D, 97] : List Nat).getD (0 + 1) 0 = 0xFE0F)) ∧
    (findSequences [0x200D, 97] 2 (1 + 1) 0 = findSequences [0x200D, 97] 2 1 (0 + 1) ∧
      wcwidthUcs Dml none (([0x200D, 97] : List Nat).getD 0 0) "latest" = 0) :=
  ⟨by decide, by decide, by decide,
    claim_c7_amended Dml none "latest" [0x200D, 97] 2 1 0 (by decide) (by decide)
      (by decide)⟩

/-- The joined-span extension never moves backwards. -/
theorem zwjEnd_ge (pwcs : List Nat) (n : Nat) :
    ∀ fuel j, j ≤ zwjEnd pwcs n fuel j := by
  intro fuel
  induction fuel with
  | zero =>
    intro j
    simp [zwjEnd]
  | succ fuel ih =>
    intro j
    simp only [zwjEnd]
    split_ifs with h1 h2 h3
    · exact le_trans (by omega) (ih (j + 2))
    · exact le_trans (by omega) (ih (j + 1))
    · exact le_refl j
    · exact le_refl j

/-- A control character can escape the claims' control set only at a
position the pre-scan absorbed into a span: whenever the pre-scan
completes, every position of the measured range outside all detected spans
passed its control test. -/
theorem findSequences_clean (pwcs : List Nat) (n : Nat) :
    ∀ fuel i seqs, n - i ≤ fuel →
      findSequences pwcs n fuel i = some seqs →
      ∀ k, i ≤ k → k < n → (∀ s ∈ seqs, ¬(s.1 ≤ k ∧ k < s.2.1)) →
      pyCtl (pwcs.getD k 0) = false := by
  intro fuel
  induction fuel with
  | zero =>
    intro i seqs hfu _hfs k hik hkn _hnc
    omega
  | succ fuel ih =>
    intro i seqs hfu hfs k hik hkn hnc
    simp only [findSequences] at hfs
    by_cases hin : i < n
    · rw [if_pos hin] at hfs
      by_cases hct : pyCtl (pwcs.getD i 0) = true
      · rw [hct] at hfs
        simp at hfs
      · have hcf : pyCtl (pwcs.getD i 0) = false := by
          revert hct
          cases pyCtl (pwcs.getD i 0) <;> simp
        rw [hcf] at hfs
        simp only [Bool.false_eq_true, if_false] at hfs
        by_cases hz : i + 1 < n ∧ pwcs.getD (i + 1) 0 = 0x200D
        · rw [if_pos hz] at hfs
          cases hrec : findSequences pwcs n fuel (zwjEnd pwcs n n (i + 2) + 1) with
          | none =>
            rw [hrec] at hfs
            cases hfs
          | some rest =>
            rw [hrec] at hfs
            obtain rfl : (i, zwjEnd pwcs n n (i + 2) + 1, SeqType.zwj) :: rest = seqs :=
              Option.some.inj hfs
            have hjge : i + 2 ≤ zwjEnd pwcs n n (i + 2) := zwjEnd_ge pwcs n n (i + 2)
            by_cases hk1 : k < zwjEnd pwcs n n (i + 2) + 1
            · exact absurd ⟨hik, hk1⟩
                (hnc (i, zwjEnd pwcs n n (i + 2) + 1, SeqType.zwj) (List.mem_cons_self _ _))
            · exact ih (zwjEnd pwcs n n (i + 2) + 1) rest (by omega) hrec k (by omega) hkn
                (fun s hs => hnc s (List.mem_cons_of_mem _ hs))
        · rw [if_neg hz] at hfs
          by_cases hv : i + 1 < n ∧ pwcs.getD (i + 1) 0 = 0xFE0F
          · rw [if_pos hv] at hfs
            cases hrec : findSequences pwcs n fuel (i + 2) with
            | none =>
              rw [hrec] at hfs
              cases hfs
            | some rest =>
              rw [hrec] at hfs
              obtain rfl : (i, i + 2, SeqType.vs16) :: rest = seqs := Option.some.inj hfs
              by_cases hk1 : k < i + 2
              · exact absurd ⟨hik, hk1⟩
                  (hnc (i, i + 2, SeqType.vs16) (List.mem_cons_self _ _))
              · exact ih (i + 2) rest (by omega) hrec k (by omega) hkn
                  (fun s hs => hnc s (List.mem_cons_of_mem _ hs))
          · rw [if_neg hv] at hfs
            by_cases hki : k = i
            · subst hki
              exact hcf
            · exact ih (i + 1) seqs (by omega) hfs k (by omega) hkn hnc
    · omega

/-- A code point of the claims' control set fails the source's control
test (the source's set is the larger `c ≠ 0 ∧ (c < 32 ∨ 0x7F ≤ c < 0xA0)`). -/
theorem claimCtl_pyCtl {c : Nat} (h : claimCtl c) : pyCtl c = true := by
  have hc : c ≠ 0 ∧ (c < 32 ∨ (0x7f ≤ c ∧ c < 0xa0)) := by
    unfold claimCtl at h
    omega
  simpa [pyCtl] using hc

/-- C4 amended: a control character within the measured prefix forces the
measure to -1 unless its position was absorbed into a detected joined or
selector span (the counterexample shows an absorbed control is skipped
and the measure can be 2). -/
theorem claim_c4_amended (D : WcData) (env : Option String) (uv : String)
    (pwcs : List Nat) (n : Option Nat) (k : Nat)
    (hk : k < measuredLen pwcs n)
    (hc : claimCtl (pwcs.getD k 0)) :
    wcswidth D env pwcs n uv = -1 ∨
    ∃ seqs, findSequences pwcs (measuredLen pwcs n) (measuredLen pwcs n) 0 = some seqs ∧
      inSpan seqs k := by
  have hp : pwcs ≠ [] := by
    intro h
    subst h
    have hm : measuredLen ([] : List Nat) n = 0 := by
      cases n <;> simp [measuredLen]
    omega
  cases hfs : findSequences pwcs (measuredLen pwcs n) (measuredLen pwcs n) 0 with
  | none =>
    left
    unfold wcswidth
    rw [if_neg hp, hfs]
  | some seqs =>
    by_cases hcov : inSpan seqs k
    · exact Or.inr ⟨seqs, rfl, hcov⟩
    · exfalso
      have hclean := findSequences_clean pwcs (measuredLen pwcs n) (measuredLen pwcs n) 0
        seqs (by omega) hfs k (Nat.zero_le k) hk
        (fun s hs hco => hcov ⟨s, hs, hco⟩)
      rw [claimCtl_pyCtl hc] at hclean
      cases hclean

/-- Witness for C4 at the one-character control string. -/
theorem claim_c4_amended_witness :
    0 < measuredLen [1] none ∧ claimCtl (([1] : List Nat).getD 0 0) ∧
      (wcswidth Dml none [1] none "latest" = -1 ∨
        ∃ seqs, findSequences [1] (measuredLen [1] none) (measuredLen [1] none) 0 =
            some seqs ∧ inSpan seqs 0) :=
  ⟨by decide, by decide,
    claim_c4_amended Dml none "latest" [1] none 0 (by decide) (by decide)⟩
